import Mathlib

set_option linter.all false

/-!
Verification of the P6 XML schema parser and query engine
(p6schema.py and p6schema_mcp.py).

The Python source is shallowly embedded: XML elements become the `Elem`
tree, the dataclasses become structures, the Python dict keyed by table
name becomes a list of tables maintained by `dictInsert` (last write
wins, an updated key keeps its original position, as CPython dicts do),
and `str.upper`, `str.lower` and the substring operator are modelled
character-wise, which is faithful on the ASCII alphabet of P6 schema
files.  All definitions are executable.
-/

namespace P6

/-- Python `str.upper`, modelled character-wise (faithful on ASCII). -/
def pyUpper (s : String) : String := String.mk (s.toList.map Char.toUpper)

/-- Python `str.lower`, modelled character-wise (faithful on ASCII). -/
def pyLower (s : String) : String := String.mk (s.toList.map Char.toLower)

/-- Python substring operator: `strContains hay needle` is `needle in hay`. -/
def strContains (hay needle : String) : Bool := decide (needle.toList <:+: hay.toList)

/-- Case-insensitive substring relation, as worded by the specification:
`pat` occurs inside `s` up to ASCII case. -/
def ciSubstr (pat s : String) : Prop := (pyUpper pat).toList <:+: (pyUpper s).toList

instance (pat s : String) : Decidable (ciSubstr pat s) := List.decidableInfix _ _

/-- Case-insensitive string equality, as worded by the specification. -/
def ciEq (a b : String) : Prop := pyUpper a = pyUpper b

instance (a b : String) : Decidable (ciEq a b) := instDecidableEqString _ _

/-- Python string comparison `a <= b`: lexicographic on code points. -/
def charsLe : List Char → List Char → Bool
  | [], _ => true
  | _ :: _, [] => false
  | a :: as, b :: bs =>
    if a.toNat < b.toNat then true
    else if b.toNat < a.toNat then false
    else charsLe as bs

/-- Python `<=` on strings. -/
def strLe (a b : String) : Bool := charsLe a.toList b.toList

/-- Insert `x` after every element that is `le x`: the insertion step of
a stable ascending sort. -/
def insertSorted (le : α → α → Bool) (x : α) : List α → List α
  | [] => [x]
  | y :: ys => if le y x then y :: insertSorted le x ys else x :: y :: ys

/-- Python sorted(): a stable ascending sort.  For a total transitive
comparison, stability and sortedness determine the output uniquely, so
this insertion sort is extensionally the sort Python performs. -/
def sortBy (le : α → α → Bool) (l : List α) : List α :=
  l.foldl (fun acc x => insertSorted le x acc) []

/-- An XML element: tag, attributes (names unique in a well-formed
document) and child elements in document order. -/
inductive Elem : Type where
  | node : String → List (String × String) → List Elem → Elem

def Elem.tag : Elem → String
  | .node t _ _ => t

def Elem.attrList : Elem → List (String × String)
  | .node _ as _ => as

def Elem.children : Elem → List Elem
  | .node _ _ cs => cs

/-- Attribute lookup without a default: `elem.get(name)`. -/
def Elem.attr? (e : Elem) (k : String) : Option String :=
  (e.attrList.find? (fun p => p.1 == k)).map (·.2)

/-- Python `elem.get(name, default)`. -/
def Elem.getAttr (e : Elem) (k d : String) : String :=
  (e.attr? k).getD d

/-- Dataclass Field of p6schema.py. -/
structure Field where
  name : String
  datatype : String
  charlength : String
  dataprecision : String
  datascale : String
  notnull : String
  default : String
  description : String
  idcolumn : String
deriving DecidableEq

/-- Field.from_xml: each attribute defaults to "" except NOTNULL and
IDCOLUMN which default to "N". -/
def Field.from_xml (e : Elem) : Field :=
  { name := e.getAttr "NAME" ""
  , datatype := e.getAttr "DATATYPE" ""
  , charlength := e.getAttr "CHARLENGTH" ""
  , dataprecision := e.getAttr "DATAPRECISION" ""
  , datascale := e.getAttr "DATASCALE" ""
  , notnull := e.getAttr "NOTNULL" "N"
  , default := e.getAttr "DEFAULT" ""
  , description := e.getAttr "DESC" ""
  , idcolumn := e.getAttr "IDCOLUMN" "N" }

/-- Dataclass Index of p6schema.py. -/
structure Index where
  name : String
  fields : String
  uniqueness : String
  tablespace : String
deriving DecidableEq

/-- Index.from_xml: UNIQUENESS defaults to "NONUNIQUE", the rest to "". -/
def Index.from_xml (e : Elem) : Index :=
  { name := e.getAttr "NAME" ""
  , fields := e.getAttr "FIELD" ""
  , uniqueness := e.getAttr "UNIQUENESS" "NONUNIQUE"
  , tablespace := e.getAttr "TABLESPACE" "" }

/-- Dataclass Constraint of p6schema.py. -/
structure Constraint where
  name : String
  type : String
  fields : String
  target_table : String
  target_fields : String
  delete_rule : String
deriving DecidableEq

/-- Constraint.from_xml: every attribute is copied with default "". -/
def Constraint.from_xml (e : Elem) : Constraint :=
  { name := e.getAttr "NAME" ""
  , type := e.getAttr "TYPE" ""
  , fields := e.getAttr "FIELDS" ""
  , target_table := e.getAttr "TARGETTABLE" ""
  , target_fields := e.getAttr "TARGETFIELDS" ""
  , delete_rule := e.getAttr "DELETERULE" "" }

/-- Dataclass Trigger of p6schema.py. -/
structure Trigger where
  name : String
  set_type : String
  target : String
  description : String
deriving DecidableEq

/-- Trigger.from_xml. -/
def Trigger.from_xml (e : Elem) : Trigger :=
  { name := e.getAttr "NAME" ""
  , set_type := e.getAttr "SET" ""
  , target := e.getAttr "TARGET" ""
  , description := e.getAttr "DESC" "" }

/-- Dataclass Table of p6schema.py. -/
structure Table where
  name : String
  description : String
  title : String
  tabletype : String
  tablespace : String
  ordinal : String
  fields : List Field
  indexes : List Index
  constraints : List Constraint
  triggers : List Trigger
deriving DecidableEq

/-- One iteration of the child loop of Table.from_xml: a FIELD, INDEX,
CONSTRAINT or TRIGGER child is appended to its collection, any other
child element is ignored. -/
def tableStep (t : Table) (c : Elem) : Table :=
  if c.tag == "FIELD" then { t with fields := t.fields ++ [Field.from_xml c] }
  else if c.tag == "INDEX" then { t with indexes := t.indexes ++ [Index.from_xml c] }
  else if c.tag == "CONSTRAINT" then { t with constraints := t.constraints ++ [Constraint.from_xml c] }
  else if c.tag == "TRIGGER" then { t with triggers := t.triggers ++ [Trigger.from_xml c] }
  else t

/-- Table.from_xml: attributes are read with their defaults, then the
children are folded in document order. -/
def Table.from_xml (e : Elem) : Table :=
  e.children.foldl tableStep
    { name := e.getAttr "NAME" ""
    , description := e.getAttr "DESC" ""
    , title := e.getAttr "TITLE" ""
    , tabletype := e.getAttr "TABLETYPE" "NORMAL"
    , tablespace := e.getAttr "TABLESPACE" ""
    , ordinal := e.getAttr "ORDINAL" ""
    , fields := [], indexes := [], constraints := [], triggers := [] }

/-- Dataclass Schema of p6schema.py.  `tables` holds the values of the
Python dict `self.tables` in dict iteration order; the dict key of every
table is its `name` field, because parsing inserts with
`schema.tables[table.name] = table`. -/
structure Schema where
  version : String
  dbtype : String
  build_version : String
  min_pro_version : String
  tables : List Table
  source_path : String
deriving DecidableEq

/-- CPython dict assignment `d[t.name] = t`: an existing key is
overwritten in place, a new key is appended. -/
def dictInsert (ts : List Table) (t : Table) : List Table :=
  if ts.any (fun u => u.name == t.name) then
    ts.map (fun u => if u.name == t.name then t else u)
  else ts ++ [t]

/-- Python dict lookup `tables.get(k)`; the dict invariant (each table
is stored under its own name, keys unique) makes `find?` the lookup. -/
def dictGet (ts : List Table) (k : String) : Option Table :=
  ts.find? (fun t => t.name == k)

/-- Schema.from_xml, starting from the already parsed document root
(file resolution and raw XML parsing are outside the model; the
`source_path` bookkeeping field is not modelled). -/
def Schema.from_xml_elem (root : Elem) : Schema :=
  { version := root.getAttr "VERSION" ""
  , dbtype := root.getAttr "DBTYPE" ""
  , build_version := root.getAttr "BUILD_VERSION_ID" ""
  , min_pro_version := root.getAttr "MIN_PRO_VERSION" ""
  , tables := ((root.children.filter (fun c => c.tag == "TABLE")).map Table.from_xml).foldl dictInsert []
  , source_path := "" }

/-- Schema.get_table: `self.tables.get(name.upper())`. -/
def Schema.get_table (s : Schema) (name : String) : Option Table :=
  dictGet s.tables (pyUpper name)

/-- Schema.search_tables: the pattern is uppercased and tested as a
substring of the stored table name (the dict key). -/
def Schema.search_tables (s : Schema) (pattern : String) : List Table :=
  let p := pyUpper pattern
  s.tables.filter (fun t => strContains t.name p)

/-- Schema.search_fields: the pattern is uppercased and tested as a
substring of the uppercased field name, across every table. -/
def Schema.search_fields (s : Schema) (pattern : String) : List (String × Field) :=
  let p := pyUpper pattern
  (s.tables.map (fun t =>
    (t.fields.filter (fun f => strContains (pyUpper f.name) p)).map
      (fun f => (t.name, f)))).flatten

/-- Result record of Schema.search_relationships. -/
structure RelRecord where
  source_table : String
  constraint : String
  fields : String
  target_table : String
  target_fields : String
deriving DecidableEq

/-- Schema.search_relationships: FOREIGN constraints whose uppercased
owning-table name, target table, local fields, target fields or
constraint name contains the uppercased pattern. -/
def Schema.search_relationships (s : Schema) (pattern : String) : List RelRecord :=
  let p := pyUpper pattern
  (s.tables.map (fun t =>
    (t.constraints.filter (fun c =>
      c.type == "FOREIGN" &&
        (strContains (pyUpper t.name) p ||
         strContains (pyUpper c.target_table) p ||
         strContains (pyUpper c.fields) p ||
         strContains (pyUpper c.target_fields) p ||
         strContains (pyUpper c.name) p))).map
      (fun c => { source_table := t.name, constraint := c.name, fields := c.fields
                , target_table := c.target_table, target_fields := c.target_fields }))).flatten

/-- Outgoing relationship record of cmd_relationships / get_relationships. -/
structure OutRecord where
  constraint : String
  fields : String
  references_table : String
  references_fields : String
deriving DecidableEq

/-- Incoming relationship record of cmd_relationships / get_relationships. -/
structure InRecord where
  table : String
  constraint : String
  fields : String
  references_fields : String
deriving DecidableEq

/-- Outgoing and incoming lists of cmd_relationships / get_relationships
(the echoed table name and the two counts of the MCP payload are the
name and the lengths of these lists). -/
structure Rels where
  outgoing : List OutRecord
  incoming : List InRecord
deriving DecidableEq

/-- cmd_relationships (p6schema.py) and get_relationships
(p6schema_mcp.py): outgoing collects every FOREIGN constraint of `t`;
incoming walks every other table (the `other_table.name == table.name`
guard skips `t` itself) and collects its FOREIGN constraints whose
uppercased target table equals the uppercased name of `t`. -/
def relationships (s : Schema) (t : Table) : Rels :=
  { outgoing := (t.constraints.filter (fun c => c.type == "FOREIGN")).map
      (fun c => { constraint := c.name, fields := c.fields
                , references_table := c.target_table, references_fields := c.target_fields })
  , incoming := (s.tables.map (fun other =>
      if other.name == t.name then []
      else (other.constraints.filter (fun c =>
            c.type == "FOREIGN" && pyUpper c.target_table == pyUpper t.name)).map
        (fun c => { table := other.name, constraint := c.name
                  , fields := c.fields, references_fields := c.target_fields }))).flatten }

/-- Modified-table record of compare_schemas / cmd_compare. -/
structure ModRecord where
  table : String
  added_fields : List String
  removed_fields : List String
deriving DecidableEq

/-- Diff part of the compare_schemas / cmd_compare payload (the echoed
version and table-count headers are not modelled). -/
structure CompareResult where
  added_tables : List String
  removed_tables : List String
  modified_tables : List ModRecord
deriving DecidableEq

/-- Python set inequality of two string collections. -/
def setNe (xs ys : List String) : Bool :=
  xs.any (fun x => !ys.contains x) || ys.any (fun y => !xs.contains y)

/-- Python sorted() on strings: stable ascending lexicographic sort. -/
def sortStrings (xs : List String) : List String := sortBy strLe xs

/-- The Python set `{f.name for f in t.fields}` as a deduplicated list. -/
def fieldNames (t : Table) : List String := (t.fields.map (·.name)).dedup

/-- Body of the common-table loop of compare_schemas: a table in both
schemas is reported iff its field-name sets differ, with sorted
added/removed field names.  The lookups cannot miss for a common name;
a miss yields no record. -/
def modifiedRecord (s1 s2 : Schema) (n : String) : Option ModRecord :=
  match dictGet s1.tables n, dictGet s2.tables n with
  | some t1, some t2 =>
    if setNe (fieldNames t1) (fieldNames t2) then
      some { table := n
           , added_fields := sortStrings ((fieldNames t2).filter (fun x => !(fieldNames t1).contains x))
           , removed_fields := sortStrings ((fieldNames t1).filter (fun x => !(fieldNames t2).contains x)) }
    else none
  | _, _ => none

/-- compare_schemas (p6schema_mcp.py), identically cmd_compare
(p6schema.py): set differences of the table-name sets give added and
removed, common names are scanned for field-name-set changes. -/
def compare_schemas (s1 s2 : Schema) : CompareResult :=
  let names1 := (s1.tables.map (·.name)).dedup
  let names2 := (s2.tables.map (·.name)).dedup
  { added_tables := sortStrings (names2.filter (fun n => !names1.contains n))
  , removed_tables := sortStrings (names1.filter (fun n => !names2.contains n))
  , modified_tables := (names1.filter (fun n => names2.contains n)).filterMap (modifiedRecord s1 s2) }

/-- Dataclass SchemaEntry of p6schema.py; `path` is the matched filename. -/
structure SchemaEntry where
  application : String
  version : String
  path : String
deriving DecidableEq

/-- Registry key `application:version`. -/
def SchemaEntry.key (e : SchemaEntry) : String := e.application ++ ":" ++ e.version

/-- ASCII decimal digit test. -/
def digit? (c : Char) : Bool := decide (48 ≤ c.toNat ∧ c.toNat ≤ 57)

/-- Numeric value of an ASCII digit. -/
def digitVal (c : Char) : Nat := c.toNat - 48

/-- Tail of FILENAME_PATTERN after the application prefix: two digits,
an underscore, two digits, then exactly "_schema.xml". -/
def matchVersionTail : List Char → Option (Char × Char × Char × Char)
  | a :: b :: u :: c :: d :: rest =>
    if digit? a && digit? b && (u == '_') && digit? c && digit? d &&
        (rest == "_schema.xml".toList)
    then some (a, b, c, d) else none
  | _ => none

/-- FILENAME_PATTERN match of SchemaRegistry, case-insensitive
(modelled by lowering the filename first; digits, underscores and the
dot are unchanged by lowering, and group 1 is lowercased by _scan
anyway).  Yields (application, version "MM.NN") on a match. -/
def matchFilename (name : String) : Option (String × String) :=
  let ls := (pyLower name).toList
  if ls.take 5 == "eppm_".toList then
    match matchVersionTail (ls.drop 5) with
    | none => none
    | some (a, b, c, d) => some ("eppm", String.mk [a, b, '.', c, d])
  else if ls.take 4 == "ppm_".toList then
    match matchVersionTail (ls.drop 4) with
    | none => none
    | some (a, b, c, d) => some ("ppm", String.mk [a, b, '.', c, d])
  else none

/-- CPython dict assignment `self._entries[entry.key] = entry`. -/
def entryInsert (l : List SchemaEntry) (x : SchemaEntry) : List SchemaEntry :=
  if l.any (fun e => e.key == x.key) then
    l.map (fun e => if e.key == x.key then x else e)
  else l ++ [x]

/-- SchemaRegistry._scan over the filenames of the regular files of the
schema directory, in directory iteration order. -/
def scanEntries (files : List String) : List SchemaEntry :=
  files.foldl (fun acc n =>
    match matchFilename n with
    | some (app, ver) => entryInsert acc { application := app, version := ver, path := n }
    | none => acc) []

/-- Sort key of list_by_app: the version string, compared as Python
compares strings. -/
def verLe (a b : SchemaEntry) : Bool := charsLe a.version.toList b.version.toList

/-- SchemaRegistry.list_by_app: entries of one application sorted by
version string (Python sorted() is a stable ascending sort). -/
def list_by_app (entries : List SchemaEntry) (application : String) : List SchemaEntry :=
  sortBy verLe (entries.filter (fun e => e.application == pyLower application))

/-- SchemaRegistry.get_latest: last element of list_by_app, none when
the application has no entries. -/
def get_latest (entries : List SchemaEntry) (application : String) : Option SchemaEntry :=
  (list_by_app entries application).getLast?

/-- Shape test for registry version strings: digit digit '.' digit digit. -/
def isVersionChars : List Char → Bool
  | [a, b, dot, c, d] => digit? a && digit? b && (dot == '.') && digit? c && digit? d
  | _ => false

/-- Numeric reading of a version string "MM.NN" as the integer pair
(major, minor); this is the comparison key the specification demands. -/
def versionPair (v : String) : Nat × Nat :=
  match v.toList with
  | [a, b, _, c, d] => (10 * digitVal a + digitVal b, 10 * digitVal c + digitVal d)
  | _ => (0, 0)

/-- Numeric (major, minor) comparison demanded by the specification. -/
def pairLe (p q : Nat × Nat) : Prop := p.1 < q.1 ∨ (p.1 = q.1 ∧ p.2 ≤ q.2)

instance (p q : Nat × Nat) : Decidable (pairLe p q) := by
  unfold pairLe
  exact inferInstance

/-- Observable states of the config file for load_config: missing; a
file the OS fails to read (OSError); a file that reads but whose bytes
are not decodable in the default encoding (read_text raises
UnicodeDecodeError); or a file that decodes to the given text. -/
inductive ConfigFile : Type where
  | absent
  | unreadable
  | undecodable
  | content (text : String)
deriving DecidableEq

/-- Exception kinds that can escape the try body of load_config:
OSError and UnicodeDecodeError from CONFIG_FILE.read_text(), and
json.JSONDecodeError from json.loads.  The except clause names only
OSError and JSONDecodeError; UnicodeDecodeError is a ValueError and is
caught by neither. -/
inductive PyErr : Type where
  | osError
  | jsonDecodeError
  | unicodeDecodeError
deriving DecidableEq

/-- The parsed configuration object (the JSON object read from the
config file); the empty list is the empty dict. -/
abbrev Config := List (String × String)

/-- CONFIG_FILE.exists(). -/
def fileExists : ConfigFile → Bool
  | .absent => false
  | _ => true

/-- CONFIG_FILE.read_text(): an absent file raises FileNotFoundError
(an OSError); a read failure raises OSError; undecodable bytes raise
UnicodeDecodeError; otherwise the decoded text is returned. -/
def read_text : ConfigFile → Except PyErr String
  | .absent => .error .osError
  | .unreadable => .error .osError
  | .undecodable => .error .unicodeDecodeError
  | .content t => .ok t

/-- json.loads given a decoder oracle: `decode t = none` means the text
is not valid JSON and JSONDecodeError is raised. -/
def json_loads (decode : String → Option Config) (t : String) : Except PyErr Config :=
  match decode t with
  | some v => .ok v
  | none => .error .jsonDecodeError

/-- load_config of p6schema.py: an absent file yields the empty dict;
otherwise the read and the parse run inside a try whose except clause
catches exactly (json.JSONDecodeError, OSError) and yields the empty
dict — any other exception, such as UnicodeDecodeError from read_text,
propagates. -/
def load_config (decode : String → Option Config) (fs : ConfigFile) : Except PyErr Config :=
  if fileExists fs = false then .ok []
  else
    match (match read_text fs with
           | .ok t => json_loads decode t
           | .error e => .error e) with
    | .ok v => .ok v
    | .error .osError => .ok []
    | .error .jsonDecodeError => .ok []
    | .error .unicodeDecodeError => .error .unicodeDecodeError

/-- A document whose single table is stored under the lower-case name
"activity"; used to probe the case handling of the lookup functions. -/
def lowDoc : Elem := .node "SCHEMA" [] [.node "TABLE" [("NAME", "activity")] []]

/-- The schema parsed from lowDoc. -/
def lowSchema : Schema := Schema.from_xml_elem lowDoc

/-- A table named "ACTIVITY" with no children, as parsing produces it. -/
def actTable : Table :=
  { name := "ACTIVITY", description := "", title := "", tabletype := "NORMAL"
  , tablespace := "", ordinal := "", fields := [], indexes := [], constraints := [], triggers := [] }

/-- A schema holding just actTable under its own (upper-case) name. -/
def upSchema : Schema :=
  { version := "", dbtype := "", build_version := "", min_pro_version := ""
  , tables := [actTable], source_path := "" }

/-- A CHECK constraint element that nevertheless carries TARGETTABLE and
TARGETFIELDS attributes. -/
def badConstraintElem : Elem :=
  .node "CONSTRAINT"
    [("NAME", "CK_X"), ("TYPE", "CHECK"), ("TARGETTABLE", "FOO"), ("TARGETFIELDS", "BAR")] []

/-- A document containing one table holding badConstraintElem. -/
def badDoc : Elem := .node "SCHEMA" [] [.node "TABLE" [("NAME", "T1")] [badConstraintElem]]

/-- The schema parsed from badDoc. -/
def badSchema : Schema := Schema.from_xml_elem badDoc

/-- A self-referencing FOREIGN constraint on PROJWBS. -/
def projwbsFk : Constraint :=
  { name := "FK_PROJWBS_PARENT", type := "FOREIGN", fields := "PARENT_WBS_ID"
  , target_table := "PROJWBS", target_fields := "WBS_ID", delete_rule := "" }

/-- Table PROJWBS carrying the self-referencing foreign key. -/
def projwbsTable : Table :=
  { name := "PROJWBS", description := "", title := "", tabletype := "NORMAL"
  , tablespace := "", ordinal := "", fields := [], indexes := []
  , constraints := [projwbsFk], triggers := [] }

/-- A schema holding just PROJWBS. -/
def projwbsSchema : Schema :=
  { version := "", dbtype := "", build_version := "", min_pro_version := ""
  , tables := [projwbsTable], source_path := "" }

/-- A FOREIGN constraint named FK_ACT_RSRC whose other four match fields
contain no "ACT". -/
def fkActRsrc : Constraint :=
  { name := "FK_ACT_RSRC", type := "FOREIGN", fields := "PROJ_ID"
  , target_table := "PROJECT", target_fields := "PROJ_ID", delete_rule := "" }

/-- Table TASKRSRC owning fkActRsrc. -/
def taskrsrcTable : Table :=
  { name := "TASKRSRC", description := "", title := "", tabletype := "NORMAL"
  , tablespace := "", ordinal := "", fields := [], indexes := []
  , constraints := [fkActRsrc], triggers := [] }

/-- A schema holding just TASKRSRC. -/
def taskrsrcSchema : Schema :=
  { version := "", dbtype := "", build_version := "", min_pro_version := ""
  , tables := [taskrsrcTable], source_path := "" }

/-- Two discoverable schema filenames used to instantiate the registry
theorems on concrete input. -/
def demoFiles : List String := ["eppm_09_09_schema.xml", "eppm_24_12_schema.xml"]

/-! Helper lemmas. -/

theorem getAttr_of_attr?_some {e : Elem} {k v : String} (d : String)
    (h : e.attr? k = some v) : e.getAttr k d = v := by
  unfold Elem.getAttr
  rw [h]
  rfl

theorem getAttr_of_attr?_none {e : Elem} {k : String} (d : String)
    (h : e.attr? k = none) : e.getAttr k d = d := by
  unfold Elem.getAttr
  rw [h]
  rfl

theorem strContains_iff {hay needle : String} :
    strContains hay needle = true ↔ needle.toList <:+: hay.toList := by
  simp [strContains]

theorem strContains_empty (s : String) : strContains s "" = true := by
  rw [strContains_iff]
  exact List.nil_infix

theorem pyUpper_empty : pyUpper "" = "" := rfl

theorem contains_true_of_mem {l : List String} {x : String} (h : x ∈ l) :
    l.contains x = true := by
  simpa using h

theorem setNe_self (xs : List String) : setNe xs xs = false := by
  unfold setNe
  rw [Bool.or_eq_false_iff]
  constructor <;>
    { rw [List.any_eq_false]
      intro x hx
      rw [contains_true_of_mem hx]
      decide }

/-! Claim C8: comparing a schema with itself yields empty diffs. -/

/-- C8 (confirmed): for every schema A, compare(A, A) yields an empty
added-tables set, an empty removed-tables set, and an empty
modified-tables list. -/
theorem compare_self_empty (s : Schema) :
    compare_schemas s s =
      { added_tables := [], removed_tables := [], modified_tables := [] } := by
  unfold compare_schemas
  have hfil : ((s.tables.map (·.name)).dedup).filter
      (fun n => !((s.tables.map (·.name)).dedup).contains n) = [] := by
    rw [List.filter_eq_nil_iff]
    intro n hn
    rw [contains_true_of_mem hn]
    decide
  have hmod : ∀ n ∈ ((s.tables.map (·.name)).dedup).filter
      (fun n => ((s.tables.map (·.name)).dedup).contains n),
      modifiedRecord s s n = none := by
    intro n _
    unfold modifiedRecord
    cases hget : dictGet s.tables n with
    | none => rfl
    | some t => simp [setNe_self]
  simp only [hfil]
  rw [List.filterMap_eq_nil_iff.mpr hmod]
  rfl

/-! Claim C10: the empty pattern matches everything. -/

/-- C10 (confirmed): for every parsed Schema, search_tables("") returns
every table, search_fields("") returns every (table name, field) pair
across all tables, and search_relationships("") returns one record per
FOREIGN constraint in the schema. -/
theorem empty_pattern_matches_all (s : Schema) :
    s.search_tables "" = s.tables ∧
    s.search_fields "" = (s.tables.map (fun t => t.fields.map (fun f => (t.name, f)))).flatten ∧
    s.search_relationships "" =
      (s.tables.map (fun t => (t.constraints.filter (fun c => c.type == "FOREIGN")).map
        (fun c => ({ source_table := t.name, constraint := c.name, fields := c.fields
                   , target_table := c.target_table, target_fields := c.target_fields }
                   : RelRecord)))).flatten := by
  refine ⟨?_, ?_, ?_⟩
  · unfold Schema.search_tables
    rw [pyUpper_empty]
    exact List.filter_eq_self.mpr (fun t _ => strContains_empty t.name)
  · unfold Schema.search_fields
    rw [pyUpper_empty]
    refine congrArg List.flatten (List.map_congr_left ?_)
    intro t _
    rw [List.filter_eq_self.mpr (fun f _ => strContains_empty (pyUpper f.name))]
  · unfold Schema.search_relationships
    rw [pyUpper_empty]
    refine congrArg List.flatten (List.map_congr_left ?_)
    intro t _
    refine congrArg _ (List.filter_congr ?_)
    intro c _
    rw [strContains_empty (pyUpper t.name)]
    simp

/-! Claim C7: attribute round-trip and defaulting for fields/indexes. -/

/-- C7 (confirmed): Field.from_xml and Index.from_xml reproduce every
present attribute verbatim and never fail on a missing one: a missing
NOTNULL yields "N", a missing IDCOLUMN yields "N", a missing Index
UNIQUENESS yields "NONUNIQUE", every other missing attribute yields ""
(the parse functions are total, so no failure is possible). -/
theorem field_index_attr_defaults (e : Elem) :
    ((∀ v, e.attr? "NAME" = some v → (Field.from_xml e).name = v) ∧
      (e.attr? "NAME" = none → (Field.from_xml e).name = "")) ∧
    ((∀ v, e.attr? "DATATYPE" = some v → (Field.from_xml e).datatype = v) ∧
      (e.attr? "DATATYPE" = none → (Field.from_xml e).datatype = "")) ∧
    ((∀ v, e.attr? "CHARLENGTH" = some v → (Field.from_xml e).charlength = v) ∧
      (e.attr? "CHARLENGTH" = none → (Field.from_xml e).charlength = "")) ∧
    ((∀ v, e.attr? "DATAPRECISION" = some v → (Field.from_xml e).dataprecision = v) ∧
      (e.attr? "DATAPRECISION" = none → (Field.from_xml e).dataprecision = "")) ∧
    ((∀ v, e.attr? "DATASCALE" = some v → (Field.from_xml e).datascale = v) ∧
      (e.attr? "DATASCALE" = none → (Field.from_xml e).datascale = "")) ∧
    ((∀ v, e.attr? "NOTNULL" = some v → (Field.from_xml e).notnull = v) ∧
      (e.attr? "NOTNULL" = none → (Field.from_xml e).notnull = "N")) ∧
    ((∀ v, e.attr? "DEFAULT" = some v → (Field.from_xml e).default = v) ∧
      (e.attr? "DEFAULT" = none → (Field.from_xml e).default = "")) ∧
    ((∀ v, e.attr? "DESC" = some v → (Field.from_xml e).description = v) ∧
      (e.attr? "DESC" = none → (Field.from_xml e).description = "")) ∧
    ((∀ v, e.attr? "IDCOLUMN" = some v → (Field.from_xml e).idcolumn = v) ∧
      (e.attr? "IDCOLUMN" = none → (Field.from_xml e).idcolumn = "N")) ∧
    ((∀ v, e.attr? "NAME" = some v → (Index.from_xml e).name = v) ∧
      (e.attr? "NAME" = none → (Index.from_xml e).name = "")) ∧
    ((∀ v, e.attr? "FIELD" = some v → (Index.from_xml e).fields = v) ∧
      (e.attr? "FIELD" = none → (Index.from_xml e).fields = "")) ∧
    ((∀ v, e.attr? "UNIQUENESS" = some v → (Index.from_xml e).uniqueness = v) ∧
      (e.attr? "UNIQUENESS" = none → (Index.from_xml e).uniqueness = "NONUNIQUE")) ∧
    ((∀ v, e.attr? "TABLESPACE" = some v → (Index.from_xml e).tablespace = v) ∧
      (e.attr? "TABLESPACE" = none → (Index.from_xml e).tablespace = "")) := by
  repeat' constructor
  all_goals first
    | (intro v h; exact getAttr_of_attr?_some _ h)
    | (intro h; exact getAttr_of_attr?_none _ h)

/-- C7 witness: a concrete field element with NAME and DATATYPE present
and everything else absent round-trips NAME and defaults NOTNULL. -/
theorem field_index_attr_defaults_witness :
    (Field.from_xml (.node "FIELD" [("NAME", "TASK_ID"), ("DATATYPE", "NUMBER")] [])).name
        = "TASK_ID" ∧
    (Field.from_xml (.node "FIELD" [("NAME", "TASK_ID"), ("DATATYPE", "NUMBER")] [])).notnull
        = "N" ∧
    (Index.from_xml (.node "INDEX" [("NAME", "NDX_TASK")] [])).uniqueness = "NONUNIQUE" := by
  refine ⟨?_, ?_, ?_⟩
  · exact (field_index_attr_defaults
      (.node "FIELD" [("NAME", "TASK_ID"), ("DATATYPE", "NUMBER")] [])).1.1 "TASK_ID" (by decide)
  · exact (field_index_attr_defaults
      (.node "FIELD" [("NAME", "TASK_ID"), ("DATATYPE", "NUMBER")] [])).2.2.2.2.2.1.2 (by decide)
  · exact (field_index_attr_defaults
      (.node "INDEX" [("NAME", "NDX_TASK")] [])).2.2.2.2.2.2.2.2.2.2.2.1.2 (by decide)

/-! Claim C5: target_table/target_fields on non-FOREIGN constraints.
The parser copies TARGETTABLE/TARGETFIELDS verbatim whatever the TYPE
attribute says, so a non-FOREIGN constraint element that carries them
yields a non-FOREIGN Constraint with non-empty targets. -/

/-- C5 counterexample: the schema parsed from badDoc holds a constraint
whose type is "CHECK" (not FOREIGN) while its target_table is "FOO" and
its target_fields is "BAR" — the claimed invariant fails. -/
theorem constraint_target_cex :
    ∃ t ∈ badSchema.tables, ∃ c ∈ t.constraints,
      c.type ≠ "FOREIGN" ∧ c.target_table ≠ "" ∧ c.target_fields ≠ "" := by
  decide

/-- C5 (corrected): if a parsed constraint's type is not FOREIGN AND its
source element carries no TARGETTABLE and no TARGETFIELDS attribute,
then its target_table and target_fields are both empty — parsing copies
those attributes verbatim (defaulting to "") regardless of type. -/
theorem constraint_target_empty_of_absent (e : Elem)
    (htype : (Constraint.from_xml e).type ≠ "FOREIGN")
    (h1 : e.attr? "TARGETTABLE" = none) (h2 : e.attr? "TARGETFIELDS" = none) :
    (Constraint.from_xml e).target_table = "" ∧ (Constraint.from_xml e).target_fields = "" :=
  ⟨getAttr_of_attr?_none "" h1, getAttr_of_attr?_none "" h2⟩

/-- C5 witness: a plain PRIMARY constraint element without target
attributes parses with empty targets. -/
theorem constraint_target_empty_witness :
    (Constraint.from_xml (.node "CONSTRAINT" [("NAME", "PK_TASK"), ("TYPE", "PRIMARY")] [])).target_table = "" ∧
    (Constraint.from_xml (.node "CONSTRAINT" [("NAME", "PK_TASK"), ("TYPE", "PRIMARY")] [])).target_fields = "" :=
  constraint_target_empty_of_absent
    (.node "CONSTRAINT" [("NAME", "PK_TASK"), ("TYPE", "PRIMARY")] [])
    (by decide) (by decide) (by decide)

/-! Claim C9: load_config error handling.  The except clause names only
(json.JSONDecodeError, OSError); CONFIG_FILE.read_text() on a file
whose bytes are not decodable in the default encoding raises
UnicodeDecodeError, a ValueError neither clause entry catches, so that
one reachable config-file state makes load_config propagate an error. -/

/-- C9 counterexample: on a config file with undecodable bytes,
read_text raises UnicodeDecodeError, the except clause does not catch
it, and load_config propagates the error instead of returning the
empty mapping — so load_config does not return a value for every state
of the config file. -/
theorem load_config_raises_cex :
    load_config (fun _ => none) ConfigFile.undecodable =
      Except.error PyErr.unicodeDecodeError := rfl

/-- C9 (corrected): for every decoder behaviour, load_config returns a
value on every config-file state except the undecodable-bytes one
(where UnicodeDecodeError propagates), and in each of the three caught
failure cases — file absent, read failure with OSError, or contents
that are not valid JSON — it returns the empty mapping. -/
theorem load_config_no_raise_cases (decode : String → Option Config) (fs : ConfigFile) :
    (fs ≠ .undecodable → ∃ v, load_config decode fs = .ok v) ∧
    (fs = .absent → load_config decode fs = .ok []) ∧
    (fs = .unreadable → load_config decode fs = .ok []) ∧
    (∀ t, fs = .content t → decode t = none → load_config decode fs = .ok []) := by
  refine ⟨?_, ?_, ?_, ?_⟩
  · intro hne
    cases fs with
    | absent => exact ⟨[], rfl⟩
    | unreadable => exact ⟨[], rfl⟩
    | undecodable => exact absurd rfl hne
    | content t =>
      unfold load_config read_text json_loads fileExists
      cases h : decode t with
      | none => exact ⟨[], by simp [h]⟩
      | some v => exact ⟨v, by simp [h]⟩
  · intro h
    subst h
    rfl
  · intro h
    subst h
    rfl
  · intro t h hdec
    subst h
    unfold load_config read_text json_loads fileExists
    simp [hdec]

/-- C9 witness: a concrete readable config state whose text fails to
decode as JSON yields the empty mapping, via the theorem at a decoder
that rejects everything. -/
theorem load_config_no_raise_cases_witness :
    load_config (fun _ => none) (.content "not json") = .ok [] :=
  (load_config_no_raise_cases (fun _ => none) (.content "not json")).2.2.2
    "not json" rfl rfl

/-! Claim C4: relationship asymmetry for self-referencing foreign keys. -/

/-- C4 (confirmed): for every schema and every table t in it, outgoing
contains a record for every FOREIGN constraint owned by t (a
self-reference included), while every incoming record names an owning
table different from t — a constraint owned by t never contributes an
incoming entry. -/
theorem relationships_self_asymmetry (s : Schema) (t : Table) (ht : t ∈ s.tables) :
    (∀ c ∈ t.constraints, c.type = "FOREIGN" →
      ({ constraint := c.name, fields := c.fields, references_table := c.target_table
       , references_fields := c.target_fields } : OutRecord) ∈ (relationships s t).outgoing) ∧
    (∀ r ∈ (relationships s t).incoming, r.table ≠ t.name) := by
  constructor
  · intro c hc htype
    unfold relationships
    exact List.mem_map.mpr ⟨c, List.mem_filter.mpr ⟨hc, by simp [htype]⟩, rfl⟩
  · intro r hr
    unfold relationships at hr
    obtain ⟨block, hblock, hrblock⟩ := List.mem_flatten.mp hr
    obtain ⟨other, hother, hdef⟩ := List.mem_map.mp hblock
    by_cases hname : other.name == t.name
    · rw [if_pos hname] at hdef
      rw [← hdef] at hrblock
      cases hrblock
    · rw [if_neg hname] at hdef
      rw [← hdef] at hrblock
      obtain ⟨c, _, hcr⟩ := List.mem_map.mp hrblock
      rw [← hcr]
      simpa using hname

/-- C4 witness: the PROJWBS self-reference scenario — outgoing carries
the self-referencing constraint, incoming carries nothing. -/
theorem relationships_self_asymmetry_witness :
    ({ constraint := "FK_PROJWBS_PARENT", fields := "PARENT_WBS_ID"
     , references_table := "PROJWBS", references_fields := "WBS_ID" } : OutRecord)
      ∈ (relationships projwbsSchema projwbsTable).outgoing ∧
    (relationships projwbsSchema projwbsTable).incoming = [] :=
  ⟨(relationships_self_asymmetry projwbsSchema projwbsTable (by decide)).1
      projwbsFk (by decide) rfl,
   by decide⟩

/-! Claim C1: get_table case handling.  The code uppercases only the
query (`self.tables.get(name.upper())`), so a table stored under a
non-uppercase name is unreachable and the lookup is case-insensitive
only on schemas whose stored table names are uppercase. -/

/-- C1 counterexample: the schema parsed from lowDoc stores a table
whose name equals "activity" up to case, yet get_table("activity")
returns none — the claim fails as universally stated. -/
theorem get_table_case_cex :
    (∃ t ∈ lowSchema.tables, ciEq t.name "activity") ∧
    lowSchema.get_table "activity" = none := by
  decide

/-- C1 (corrected): get_table(name) looks the uppercased name up among
the stored table names by exact match; on a schema whose stored table
names are uppercase (as P6 names are) this is a case-insensitive exact
match — a table whose name equals the query up to case is returned,
otherwise none — and get_table("activity") and get_table("ACTIVITY")
coincide on every schema. -/
theorem get_table_upper_lookup (s : Schema)
    (hwf : (s.tables.map (fun t => t.name)).Nodup)
    (hupper : ∀ t ∈ s.tables, pyUpper t.name = t.name) (name : String) :
    (∀ t ∈ s.tables, ciEq t.name name → s.get_table name = some t) ∧
    ((∀ t ∈ s.tables, ¬ ciEq t.name name) → s.get_table name = none) ∧
    s.get_table "activity" = s.get_table "ACTIVITY" := by
  refine ⟨?_, ?_, ?_⟩
  · intro t ht hci
    have hname : t.name = pyUpper name := by
      rw [← hupper t ht]
      exact hci
    show dictGet s.tables (pyUpper name) = some t
    unfold dictGet
    cases hfind : s.tables.find? (fun u => u.name == pyUpper name) with
    | none =>
      rw [List.find?_eq_none] at hfind
      exact absurd (by simp [hname] : (t.name == pyUpper name) = true)
        (by simpa using hfind t ht)
    | some u =>
      have hu_mem := List.mem_of_find?_eq_some hfind
      have hu_name : u.name = pyUpper name := by
        simpa using List.find?_some hfind
      have : u = t :=
        List.inj_on_of_nodup_map hwf hu_mem ht (by rw [hu_name, hname])
      rw [this]
  · intro hno
    show dictGet s.tables (pyUpper name) = none
    unfold dictGet
    cases hfind : s.tables.find? (fun u => u.name == pyUpper name) with
    | none => rfl
    | some u =>
      have hu_mem := List.mem_of_find?_eq_some hfind
      have hu_name : u.name = pyUpper name := by
        simpa using List.find?_some hfind
      have hci : ciEq u.name name := by
        show pyUpper u.name = pyUpper name
        rw [hupper u hu_mem, hu_name]
      exact absurd hci (hno u hu_mem)
  · show dictGet s.tables (pyUpper "activity") = dictGet s.tables (pyUpper "ACTIVITY")
    exact congrArg (dictGet s.tables) (by decide)

/-- C1 witness: on a schema holding the table "ACTIVITY", the
lower-case query finds it. -/
theorem get_table_upper_lookup_witness :
    upSchema.get_table "activity" = some actTable :=
  (get_table_upper_lookup upSchema (by decide) (by decide) "activity").1
    actTable (by decide) (by decide)

/-! Claim C2: search_tables case handling.  The code uppercases only the
pattern (`pattern in name` with the stored name untouched), so the match
is case-insensitive only in the pattern. -/

/-- C2 counterexample: the schema parsed from lowDoc stores a table
whose name contains "Act" up to case, yet search_tables("Act") returns
nothing — the claim fails as universally stated. -/
theorem search_tables_case_cex :
    (∃ t ∈ lowSchema.tables, ciSubstr "Act" t.name) ∧
    lowSchema.search_tables "Act" = [] := by
  decide

/-- C2 (corrected): search_tables(pattern) returns exactly the tables
whose stored name contains the uppercased pattern as an exact
substring; on a schema whose stored table names are uppercase (as P6
names are) this is precisely the case-insensitive substring match the
claim describes. -/
theorem search_tables_upper_spec (s : Schema)
    (hupper : ∀ t ∈ s.tables, pyUpper t.name = t.name) (pattern : String) :
    s.search_tables pattern =
      s.tables.filter (fun t => decide (ciSubstr pattern t.name)) := by
  simp only [Schema.search_tables]
  refine List.filter_congr ?_
  intro t ht
  show strContains t.name (pyUpper pattern) = decide (ciSubstr pattern t.name)
  unfold ciSubstr strContains
  simp only [hupper t ht]

/-- C2 witness: the pattern "act" finds the table "ACTIVITY". -/
theorem search_tables_upper_spec_witness :
    upSchema.search_tables "act" = [actTable] := by
  rw [search_tables_upper_spec upSchema (by decide) "act"]
  decide

/-! Claim C6: search_relationships matches any of five fields. -/

theorem strContains_ci {p a : String} :
    strContains (pyUpper a) (pyUpper p) = true ↔ ciSubstr p a :=
  strContains_iff

/-- C6 (confirmed): search_relationships(pattern) holds exactly the
records of FOREIGN constraints for which the pattern is a
case-insensitive substring of the owning-table name, the target table,
the local fields, the target fields, or the constraint name; in
particular non-FOREIGN constraints never appear. -/
theorem search_relationships_mem (s : Schema) (pattern : String) (r : RelRecord) :
    r ∈ s.search_relationships pattern ↔
      ∃ t ∈ s.tables, ∃ c ∈ t.constraints, c.type = "FOREIGN" ∧
        (ciSubstr pattern t.name ∨ ciSubstr pattern c.target_table ∨
         ciSubstr pattern c.fields ∨ ciSubstr pattern c.target_fields ∨
         ciSubstr pattern c.name) ∧
        r = { source_table := t.name, constraint := c.name, fields := c.fields
            , target_table := c.target_table, target_fields := c.target_fields } := by
  constructor
  · intro hr
    simp only [Schema.search_relationships] at hr
    obtain ⟨block, hblock, hrb⟩ := List.mem_flatten.mp hr
    obtain ⟨t, ht, rfl⟩ := List.mem_map.mp hblock
    obtain ⟨c, hcf, rfl⟩ := List.mem_map.mp hrb
    obtain ⟨hc, hcond⟩ := List.mem_filter.mp hcf
    rw [Bool.and_eq_true] at hcond
    obtain ⟨htype, hmatch⟩ := hcond
    simp only [Bool.or_eq_true, strContains_ci] at hmatch
    refine ⟨t, ht, c, hc, by simpa using htype, ?_, rfl⟩
    tauto
  · rintro ⟨t, ht, c, hc, htype, hmatch, rfl⟩
    simp only [Schema.search_relationships]
    refine List.mem_flatten.mpr ⟨_, List.mem_map.mpr ⟨t, ht, rfl⟩, ?_⟩
    refine List.mem_map.mpr ⟨c, List.mem_filter.mpr ⟨hc, ?_⟩, rfl⟩
    rw [Bool.and_eq_true]
    refine ⟨by simpa using htype, ?_⟩
    simp only [Bool.or_eq_true, strContains_ci]
    tauto

/-- C6 witness: the FK_ACT_RSRC scenario — the pattern "ACT" matches on
the constraint name alone. -/
theorem search_relationships_mem_witness :
    ({ source_table := "TASKRSRC", constraint := "FK_ACT_RSRC", fields := "PROJ_ID"
     , target_table := "PROJECT", target_fields := "PROJ_ID" } : RelRecord)
      ∈ taskrsrcSchema.search_relationships "ACT" :=
  (search_relationships_mem taskrsrcSchema "ACT" _).mpr
    ⟨taskrsrcTable, by decide, fkActRsrc, by decide, rfl,
     Or.inr (Or.inr (Or.inr (Or.inr (by decide)))), rfl⟩

/-! Claim C3: get_latest and numeric version comparison.  The code
sorts the version strings lexicographically, but every version a scan
can produce has the fixed two-digit.two-digit shape, on which the
lexicographic order coincides with the numeric (major, minor) order. -/

theorem charsLe_cons_iff {a b : Char} {as bs : List Char} :
    charsLe (a :: as) (b :: bs) = true ↔
      a.toNat < b.toNat ∨ (a.toNat = b.toNat ∧ charsLe as bs = true) := by
  constructor
  · intro h
    simp only [charsLe] at h
    split_ifs at h with h1 h2
    · exact Or.inl h1
    · exact Or.inr ⟨by omega, h⟩
  · intro h
    simp only [charsLe]
    rcases h with h | ⟨heq, hrec⟩
    · rw [if_pos h]
    · rw [if_neg (by omega), if_neg (by omega)]
      exact hrec

theorem charsLe_total : ∀ as bs : List Char, (charsLe as bs || charsLe bs as) = true
  | [], [] => rfl
  | [], _ :: _ => rfl
  | _ :: _, [] => rfl
  | a :: as, b :: bs => by
    by_cases h1 : a.toNat < b.toNat
    · simp [charsLe, h1]
    · by_cases h2 : b.toNat < a.toNat
      · simp [charsLe, h1, h2]
      · simp only [charsLe, if_neg h1, if_neg h2]
        exact charsLe_total as bs

theorem charsLe_trans : ∀ as bs cs : List Char,
    charsLe as bs = true → charsLe bs cs = true → charsLe as cs = true
  | [], _, _, _, _ => rfl
  | _ :: _, [], _, h1, _ => by simp [charsLe] at h1
  | _ :: _, _ :: _, [], _, h2 => by simp [charsLe] at h2
  | a :: as, b :: bs, c :: cs, h1, h2 => by
    rw [charsLe_cons_iff] at h1 h2 ⊢
    rcases h1 with h1 | ⟨he1, hr1⟩ <;> rcases h2 with h2 | ⟨he2, hr2⟩
    · exact Or.inl (by omega)
    · exact Or.inl (by omega)
    · exact Or.inl (by omega)
    · exact Or.inr ⟨by omega, charsLe_trans as bs cs hr1 hr2⟩

theorem verLe_total (a b : SchemaEntry) : (verLe a b || verLe b a) = true :=
  charsLe_total _ _

theorem verLe_trans (a b c : SchemaEntry) :
    verLe a b = true → verLe b c = true → verLe a c = true :=
  charsLe_trans _ _ _

theorem mem_insertSorted {le : α → α → Bool} {x a : α} :
    ∀ {l : List α}, a ∈ insertSorted le x l ↔ a = x ∨ a ∈ l
  | [] => by simp [insertSorted]
  | y :: ys => by
    simp only [insertSorted]
    split_ifs with h
    · rw [List.mem_cons, mem_insertSorted (l := ys), List.mem_cons]
      tauto
    · simp only [List.mem_cons]

theorem pairwise_insertSorted {le : α → α → Bool}
    (htot : ∀ a b, (le a b || le b a) = true)
    (htr : ∀ a b c, le a b = true → le b c = true → le a c = true)
    (x : α) : ∀ l : List α, l.Pairwise (fun a b => le a b = true) →
    (insertSorted le x l).Pairwise (fun a b => le a b = true)
  | [], _ => by simp [insertSorted]
  | y :: ys, hp => by
    rw [List.pairwise_cons] at hp
    obtain ⟨hy, hys⟩ := hp
    simp only [insertSorted]
    split_ifs with h
    · rw [List.pairwise_cons]
      refine ⟨?_, pairwise_insertSorted htot htr x ys hys⟩
      intro b hb
      rcases mem_insertSorted.mp hb with rfl | hbys
      · exact h
      · exact hy b hbys
    · rw [List.pairwise_cons]
      have hxy : le x y = true := by
        have htot' := htot y x
        rw [Bool.not_eq_true] at h
        rw [h] at htot'
        simpa using htot'
      refine ⟨?_, List.pairwise_cons.mpr ⟨hy, hys⟩⟩
      intro b hb
      rcases List.mem_cons.mp hb with rfl | hbys
      · exact hxy
      · exact htr x y b hxy (hy b hbys)

theorem mem_sortBy {le : α → α → Bool} {l : List α} {a : α} :
    a ∈ sortBy le l ↔ a ∈ l := by
  suffices h : ∀ (l acc : List α),
      (a ∈ l.foldl (fun acc x => insertSorted le x acc) acc ↔ a ∈ acc ∨ a ∈ l) by
    have h0 := h l []
    simpa [sortBy] using h0
  intro l
  induction l with
  | nil => intro acc; simp
  | cons x xs ih =>
    intro acc
    rw [List.foldl_cons, ih, mem_insertSorted]
    simp only [List.mem_cons]
    tauto

theorem pairwise_sortBy {le : α → α → Bool}
    (htot : ∀ a b, (le a b || le b a) = true)
    (htr : ∀ a b c, le a b = true → le b c = true → le a c = true)
    (l : List α) : (sortBy le l).Pairwise (fun a b => le a b = true) := by
  suffices h : ∀ (l acc : List α), acc.Pairwise (fun a b => le a b = true) →
      (l.foldl (fun acc x => insertSorted le x acc) acc).Pairwise (fun a b => le a b = true) by
    exact h l [] List.Pairwise.nil
  intro l
  induction l with
  | nil => intro acc hacc; simpa using hacc
  | cons x xs ih =>
    intro acc hacc
    rw [List.foldl_cons]
    exact ih _ (pairwise_insertSorted htot htr x acc hacc)

theorem sortBy_eq_nil_iff {le : α → α → Bool} {l : List α} :
    sortBy le l = [] ↔ l = [] := by
  constructor
  · intro h
    cases l with
    | nil => rfl
    | cons x xs =>
      have hx : x ∈ sortBy le (x :: xs) := mem_sortBy.mpr (List.mem_cons_self x xs)
      rw [h] at hx
      cases hx
  · intro h
    rw [h]
    rfl

theorem digit?_iff {c : Char} : digit? c = true ↔ 48 ≤ c.toNat ∧ c.toNat ≤ 57 := by
  simp [digit?]

theorem isVersionChars_elim {l : List Char} (h : isVersionChars l = true) :
    ∃ a b c d, l = [a, b, '.', c, d] ∧ digit? a = true ∧ digit? b = true ∧
      digit? c = true ∧ digit? d = true := by
  rcases l with _ | ⟨a, _ | ⟨b, _ | ⟨dot, _ | ⟨c, _ | ⟨d, _ | ⟨e, rest⟩⟩⟩⟩⟩⟩ <;>
    simp only [isVersionChars] at h
  · simp at h
  · simp at h
  · simp at h
  · simp at h
  · simp at h
  · rw [Bool.and_eq_true, Bool.and_eq_true, Bool.and_eq_true, Bool.and_eq_true] at h
    obtain ⟨⟨⟨⟨ha, hb⟩, hdot⟩, hc⟩, hd⟩ := h
    have : dot = '.' := by simpa using hdot
    exact ⟨a, b, c, d, by rw [this], ha, hb, hc, hd⟩
  · simp at h

theorem charsLe_version_pairLe {a b c d a2 b2 c2 d2 : Char}
    (ha : digit? a = true) (hb : digit? b = true)
    (hc : digit? c = true) (hd : digit? d = true)
    (ha2 : digit? a2 = true) (hb2 : digit? b2 = true)
    (hc2 : digit? c2 = true) (hd2 : digit? d2 = true)
    (h : charsLe [a, b, '.', c, d] [a2, b2, '.', c2, d2] = true) :
    pairLe (10 * digitVal a + digitVal b, 10 * digitVal c + digitVal d)
           (10 * digitVal a2 + digitVal b2, 10 * digitVal c2 + digitVal d2) := by
  rw [digit?_iff] at ha hb hc hd ha2 hb2 hc2 hd2
  unfold pairLe digitVal
  rw [charsLe_cons_iff] at h
  rcases h with h | ⟨he1, h⟩
  · left
    omega
  · rw [charsLe_cons_iff] at h
    rcases h with h | ⟨he2, h⟩
    · left
      omega
    · rw [charsLe_cons_iff] at h
      rcases h with h | ⟨_, h⟩
      · omega
      · rw [charsLe_cons_iff] at h
        rcases h with h | ⟨he3, h⟩
        · right
          exact ⟨by omega, by omega⟩
        · rw [charsLe_cons_iff] at h
          rcases h with h | ⟨he4, _⟩
          · right
            exact ⟨by omega, by omega⟩
          · right
            exact ⟨by omega, by omega⟩

theorem matchVersionTail_digits {l : List Char} {a b c d : Char}
    (h : matchVersionTail l = some (a, b, c, d)) :
    digit? a = true ∧ digit? b = true ∧ digit? c = true ∧ digit? d = true := by
  rcases l with _ | ⟨x, _ | ⟨y, _ | ⟨u, _ | ⟨z, _ | ⟨w, rest⟩⟩⟩⟩⟩ <;>
    simp only [matchVersionTail] at h <;>
    try exact Option.noConfusion h
  split_ifs at h with hcond
  · simp only [Option.some.injEq, Prod.mk.injEq] at h
    obtain ⟨rfl, rfl, rfl, rfl⟩ := h
    rw [Bool.and_eq_true, Bool.and_eq_true, Bool.and_eq_true, Bool.and_eq_true,
      Bool.and_eq_true] at hcond
    exact ⟨hcond.1.1.1.1.1, hcond.1.1.1.1.2, hcond.1.1.2, hcond.1.2⟩

theorem matchFilename_version {n app ver : String}
    (h : matchFilename n = some (app, ver)) : isVersionChars ver.toList = true := by
  simp only [matchFilename] at h
  split_ifs at h with h1 h2
  · cases hmv : matchVersionTail ((pyLower n).toList.drop 5) with
    | none =>
      rw [hmv] at h
      exact Option.noConfusion h
    | some q =>
      obtain ⟨a, b, c, d⟩ := q
      rw [hmv] at h
      simp only [Option.some.injEq, Prod.mk.injEq] at h
      obtain ⟨-, rfl⟩ := h
      obtain ⟨ha, hb, hc, hd⟩ := matchVersionTail_digits hmv
      simp [isVersionChars, String.toList, ha, hb, hc, hd]
  · cases hmv : matchVersionTail ((pyLower n).toList.drop 4) with
    | none =>
      rw [hmv] at h
      exact Option.noConfusion h
    | some q =>
      obtain ⟨a, b, c, d⟩ := q
      rw [hmv] at h
      simp only [Option.some.injEq, Prod.mk.injEq] at h
      obtain ⟨-, rfl⟩ := h
      obtain ⟨ha, hb, hc, hd⟩ := matchVersionTail_digits hmv
      simp [isVersionChars, String.toList, ha, hb, hc, hd]

theorem mem_entryInsert {l : List SchemaEntry} {x e : SchemaEntry}
    (h : e ∈ entryInsert l x) : e = x ∨ e ∈ l := by
  unfold entryInsert at h
  split_ifs at h with hc
  · obtain ⟨u, hu, hue⟩ := List.mem_map.mp h
    by_cases hk : u.key == x.key
    · rw [if_pos hk] at hue
      exact Or.inl hue.symm
    · rw [if_neg hk] at hue
      exact Or.inr (hue ▸ hu)
  · rcases List.mem_append.mp h with h | h
    · exact Or.inr h
    · simp only [List.mem_singleton] at h
      exact Or.inl h

theorem scanEntries_valid {files : List String} :
    ∀ e ∈ scanEntries files, isVersionChars e.version.toList = true := by
  suffices h : ∀ (fs : List String) (acc : List SchemaEntry),
      (∀ e ∈ acc, isVersionChars e.version.toList = true) →
      ∀ e ∈ fs.foldl (fun acc n =>
        match matchFilename n with
        | some (app, ver) => entryInsert acc { application := app, version := ver, path := n }
        | none => acc) acc, isVersionChars e.version.toList = true by
    intro e he
    exact h files [] (by simp) e he
  intro fs
  induction fs with
  | nil =>
    intro acc hacc e he
    exact hacc e (by simpa using he)
  | cons n ns ih =>
    intro acc hacc e he
    rw [List.foldl_cons] at he
    refine ih _ ?_ e he
    intro u hu
    cases hm : matchFilename n with
    | none =>
      rw [hm] at hu
      exact hacc u hu
    | some p =>
      obtain ⟨app, ver⟩ := p
      rw [hm] at hu
      rcases mem_entryInsert hu with rfl | hmem
      · exact matchFilename_version hm
      · exact hacc u hmem

end P6
